import Mathlib

/-!
Verification of the MAF (Multiple Alignment Format) indexing and splicing
engine of `Bio/AlignIO/MafIO.py`.

The Python source is shallowly embedded: pure functions become Lean
functions over `Nat` / `Int` / `List`, stateful scans become folds or
structural recursions, and fallible code returns `Except String`.
Coordinates are modelled as `Nat` (MAF coordinates are non-negative;
Python `>>` on non-negative ints is `Nat.shiftRight`, and the places
where Python could go negative are noted at each definition).
-/

/-- Constant `MAFINDEX_VERSION` from MafIO.py (stored as TEXT in sqlite, parsed
back with `int`; modelled as `Int`). -/
def MAFINDEX_VERSION : Int := 1

/-- Embedding of `MafIndex._ucscbin(start, end)` (MafIO.py lines 440-465).
The Python loop over `bin_offsets = [585, 73, 9, 1, 0]` with an initial
shift of 17 and 3 further bits per level is unrolled: the loop body only
compares, returns, or shifts, so the unrolling is exact.  After the last
offset the loop exhausts and the function returns 0. -/
def ucscbin (start end_ : Nat) : Nat :=
  let start_bin0 := start >>> 17
  let end_bin0 := (end_ - 1) >>> 17
  if start_bin0 = end_bin0 then 512 + 64 + 8 + 1 + start_bin0
  else
    let start_bin1 := start_bin0 >>> 3
    let end_bin1 := end_bin0 >>> 3
    if start_bin1 = end_bin1 then 64 + 8 + 1 + start_bin1
    else
      let start_bin2 := start_bin1 >>> 3
      let end_bin2 := end_bin1 >>> 3
      if start_bin2 = end_bin2 then 8 + 1 + start_bin2
      else
        let start_bin3 := start_bin2 >>> 3
        let end_bin3 := end_bin2 >>> 3
        if start_bin3 = end_bin3 then 1 + start_bin3
        else
          let start_bin4 := start_bin3 >>> 3
          let end_bin4 := end_bin3 >>> 3
          if start_bin4 = end_bin4 then 0 + start_bin4
          else 0

/-- Embedding of `MafIndex._region2bin(start, end)` (MafIO.py lines
424-438).  `bins = [0, 1]` extended with four Python `range`s and turned
into a `set`; Python `range(a, b)` is `Finset.Ico a b`. -/
def region2bin (start end_ : Nat) : Finset Nat :=
  ({0, 1} : Finset Nat)
    ∪ Finset.Ico (1 + (start >>> 26)) (2 + ((end_ - 1) >>> 26))
    ∪ Finset.Ico (9 + (start >>> 23)) (10 + ((end_ - 1) >>> 23))
    ∪ Finset.Ico (73 + (start >>> 20)) (74 + ((end_ - 1) >>> 20))
    ∪ Finset.Ico (585 + (start >>> 17)) (586 + ((end_ - 1) >>> 17))

/-- The lexicographic `(start, end, offset)` order used by the sqlite
query `ORDER BY start, end, offset ASC` (MafIO.py lines 522-526). -/
def rowLE (a b : Nat × Nat × Nat) : Prop :=
  a.1 < b.1 ∨ (a.1 = b.1 ∧ (a.2.1 < b.2.1 ∨ (a.2.1 = b.2.1 ∧ a.2.2 ≤ b.2.2)))

instance : DecidableRel rowLE := fun a b => by
  unfold rowLE
  exact inferInstance

instance : IsTotal (Nat × Nat × Nat) rowLE :=
  ⟨by intro a b; unfold rowLE; omega⟩

instance : IsTrans (Nat × Nat × Nat) rowLE :=
  ⟨by intro a b c; unfold rowLE; omega⟩

/-- One row of the `offset_data` table `(bin, start, end, offset)`
(MafIO.py line 348).  `start`/`end` are the 0-based inclusive bounds of
the reference record of a block, `offset` the byte position of the
block.  The sqlite column `end` is a Lean keyword, hence `end_`. -/
structure IdxEntry where
  bin : Nat
  start : Nat
  end_ : Nat
  offset : Nat
deriving DecidableEq

/-- The rows produced for one query interval by the `SELECT DISTINCT
start, end, offset FROM offset_data WHERE bin IN (...) AND (end BETWEEN
exonstart AND exonend - 1 OR exonend - 1 BETWEEN start AND end) ORDER BY
start, end, offset ASC` statement of `MafIndex.search` (MafIO.py lines
496-528).  `DISTINCT` is `dedup` on the projected triple; the `ORDER BY`
of the sqlite engine is modelled by sorting with `rowLE` (insertion sort,
so that concrete runs reduce in the kernel). -/
def searchRowsOne (entries : List IdxEntry) (exonstart exonend : Nat) :
    List (Nat × Nat × Nat) :=
  List.insertionSort rowLE
    (((entries.filter (fun ent =>
        decide (ent.bin ∈ region2bin exonstart exonend ∧
          ((exonstart ≤ ent.end_ ∧ ent.end_ ≤ exonend - 1) ∨
           (ent.start ≤ exonend - 1 ∧ exonend - 1 ≤ ent.end_))))).map
      (fun ent => (ent.start, ent.end_, ent.offset))).dedup)

/-- The `(start, end, offset)` rows of `MafIndex.search` (MafIO.py lines
472-552) in yield order: the coordinate validation loop, then one query
per interval, concatenated in the order the intervals were given.  Each
yielded block is fetched from the row's offset, so this is also the
sequence of yielded blocks keyed by `(start, end, offset)`. -/
def searchRows (entries : List IdxEntry) (starts ends_ : List Nat) :
    Except String (List (Nat × Nat × Nat)) :=
  if starts.length ≠ ends_.length then
    .error "Every position in starts must have a match in ends"
  else if (starts.zip ends_).any (fun p => decide (p.2 - p.1 < 1)) then
    .error "Exon coordinates invalid: exon length < 1"
  else
    .ok ((starts.zip ends_).flatMap (fun p => searchRowsOne entries p.1 p.2))

/-- Model of the `SeqRecord`s produced by `MafIterator` (MafIO.py lines
193-218): id plus the `start`, `size`, `strand`, `srcSize` annotations
and the aligned text. -/
structure PSeqRec where
  id : String
  start : Nat
  size : Nat
  strand : Int
  srcSize : Nat
  text : List Char
deriving DecidableEq

/-- A `MultipleSeqAlignment` as consumed by the index core: its ordered
records (the core reads no block-level annotations). -/
abbrev Block := List PSeqRec

/-- The cross-validation of a fetched block against its index row
(MafIO.py lines 534-551): every record whose id equals the reference id
must have `(start, start + size - 1)` equal to the row's `(start, end)`,
else `ValueError`; a block without the reference id is yielded
unchecked. -/
def checkFetched (target : String) (row : Nat × Nat × Nat) (fetched : Block) :
    Except String Block :=
  if fetched.any (fun record =>
      decide (record.id = target ∧
        ¬(record.start = row.1 ∧ record.start + record.size - 1 = row.2.1))) then
    .error "Expected record coordinates differ from the index"
  else .ok fetched

/-- Embedding of `MafIndex.search` (MafIO.py lines 472-552).  The MAF file handle is
modelled as a partial map from byte offsets to parsed blocks (seeking to
an offset that holds no block is a fetch error). -/
def search (entries : List IdxEntry) (file : List (Nat × Block)) (target : String)
    (starts ends_ : List Nat) : Except String (List Block) := do
  let rows ← searchRows entries starts ends_
  rows.mapM (fun row =>
    match file.lookup row.2.2 with
    | none => Except.error "Could not fetch an alignment block at the indexed offset"
    | some fetched => checkFetched target row fetched)

/-- Python `line.startswith(m)` for the one-character block markers:
true iff the first character is the marker. -/
def lineStartsWith (line : String) (marker : Char) : Bool :=
  line.toList.head? = some marker

/-- Python `not line.strip()`: the line has no non-whitespace symbol. -/
def lineBlank (line : String) : Bool :=
  line.toList.all (fun c => c.isWhitespace)

/-- Python `line.strip().split()`: split on runs of whitespace,
discarding empty pieces. -/
def pySplit (line : String) : List String :=
  ((List.splitOnP (fun c => c.isWhitespace) line.toList).filter
    (fun w => !(w.isEmpty))).map (fun w => String.mk w)

/-- Python `int(...)` applied to the numeric MAF fields (all
non-negative in the format; a non-numeral raises `ValueError`). -/
def parseNat (s : String) : Except String Nat :=
  if s.toList ≠ [] ∧ s.toList.all (fun c => c.isDigit) then
    .ok (s.toList.foldl (fun a c => a * 10 + (c.toNat - 48)) 0)
  else .error ("invalid literal for int: " ++ s)

/-- The MAF strand field conversion of `MafIterator` (MafIO.py lines
183-190): `+` becomes `1`, `-` becomes `-1`, and anything else falls
through to `1` (the `TODO: issue warning, set to 0?` branch). -/
def parseStrandField (f : String) : Int :=
  if f = "+" then 1 else if f = "-" then -1 else 1

/-- Dot/period expansion of `MafIterator` (MafIO.py lines 200-211): if
the text contains `.`, it is an error when no record was parsed yet in
this block; otherwise each `.` is replaced by the symbol at the same
column of the first record (Python `zip` truncates to the shorter). -/
def interpretDots (records : List PSeqRec) (sequence : List Char) :
    Except String (List Char) :=
  if '.' ∈ sequence then
    match records with
    | [] => .error "Found dot/period in first sequence of alignment"
    | ref :: _ =>
        .ok ((sequence.zip ref.text).map (fun p => if p.1 = '.' then p.2 else p.1))
  else .ok sequence

/-- The `s`-line branch of `MafIterator` (MafIO.py lines 176-218): the
whitespace-split line must have exactly 7 fields (the `len(line_split)
!= 7` check, expressed as the pattern match), the strand field is
converted, numeric fields parsed, dots interpreted, and a record is
built. -/
def parseSLineFields (records : List PSeqRec) (line_split : List String) :
    Except String PSeqRec :=
  match line_split with
  | [_marker, src, startF, sizeF, strandF, srcSizeF, textF] => do
    let strand := parseStrandField strandF
    let start ← parseNat startF
    let size ← parseNat sizeF
    let srcSize ← parseNat srcSizeF
    let sequence ← interpretDots records textF.toList
    .ok ⟨src, start, size, strand, srcSize, sequence⟩
  | _ => .error "Error parsing alignment - 's' line must have 7 fields"

/-- The classification a line receives in the in-block state of
`MafIterator`. -/
inductive BundleStep where
  | addRecord (r : PSeqRec)
  | skip
  | endBundle
  | fail (msg : String)
deriving DecidableEq

/-- One step of the `in_a_bundle` state of `MafIterator` (MafIO.py lines
175-256): `s` lines add a record, `i`/`e`/`q` lines are passed over,
`#` comments are ignored, a blank line ends the bundle, and anything
else raises `ValueError`. -/
def bundleLine (records : List PSeqRec) (line : String) : BundleStep :=
  if lineStartsWith line 's' then
    match parseSLineFields records (pySplit line) with
    | .ok r => .addRecord r
    | .error e => .fail e
  else if lineStartsWith line 'i' then .skip
  else if lineStartsWith line 'e' then .skip
  else if lineStartsWith line 'q' then .skip
  else if lineStartsWith line '#' then .skip
  else if lineBlank line then .endBundle
  else .fail ("Error parsing alignment - unexpected line:\n" ++ line)

/-- The `meta_data` rows of an existing index database, already read
back and `int`-converted where the code does so (MafIO.py lines
296-331). -/
structure DBMeta where
  version : Int
  filename : String
  target_seqname : String
  record_count : Int
deriving DecidableEq

/-- Embedding of `MafIndex.__check_existing_db` (MafIO.py lines 296-334):
`records_found` is the `SELECT COUNT(*) FROM offset_data` result.
Sqlite-level access failures (missing tables, unreadable file), which
the code wraps into `ValueError` as well, are outside this model. -/
def check_existing_db (meta : DBMeta) (records_found : Nat)
    (maf_file target_seqname : String) : Except String Nat :=
  if meta.version ≠ MAFINDEX_VERSION then
    .error "Index version incompatible with this version of MafIndex"
  else if meta.filename ≠ maf_file then
    .error "Index uses a different file"
  else if meta.target_seqname ≠ target_seqname then
    .error "Provided database indexed for another target seqname"
  else if meta.record_count = -1 then
    .error "Unfinished/partial database provided"
  else if (records_found : Int) ≠ meta.record_count then
    .error "Found record count differs from the stored one.  Corrupt index?"
  else .ok records_found

/-- Modelled from the spec: `Bio.Seq.Seq.reverse_complement` is not part
of src/ (the sequence representation is an external collaborator).  Per
the spec it complements nucleotide symbols and reverses the text; the
gap symbol and symbols outside the complement table are left unchanged,
so gaps are preserved. -/
def complementBase (c : Char) : Char :=
  if c = 'A' then 'T' else if c = 'T' then 'A'
  else if c = 'C' then 'G' else if c = 'G' then 'C'
  else if c = 'a' then 't' else if c = 't' then 'a'
  else if c = 'c' then 'g' else if c = 'g' then 'c'
  else c

/-- Modelled from the spec: reverse-complement of an aligned text. -/
def reverse_complement (s : List Char) : List Char :=
  (s.map complementBase).reverse

/-- A Python dict with `Nat` keys, in insertion order: an association
list with unique keys; assignment replaces the value in place. -/
def dictSet (m : List (Nat × List Char)) (k : Nat) (v : List Char) :
    List (Nat × List Char) :=
  if m.any (fun p => decide (p.1 = k)) then
    m.map (fun p => if p.1 = k then (k, v) else p)
  else m ++ [(k, v)]

/-- The update `split_by_position[seqrec.id][real_pos] += c` (MafIO.py line 659).
In Python a missing key would raise `KeyError`; the walked positions are
exactly the blanked ones, so the missing-key case (modelled as starting
from the empty fragment) is unreachable. -/
def dictAppend (m : List (Nat × List Char)) (k : Nat) (c : Char) :
    List (Nat × List Char) :=
  dictSet m k (((m.lookup k).getD []) ++ [c])

/-- Update one sequence's position dict inside `split_by_position`.  The
outer keys are fixed to `all_seqnames` up front (MafIO.py lines
598-599); every id written to comes from a fetched block and hence is in
`all_seqnames`, so the no-op on an unknown id is unreachable (Python
would raise `KeyError`). -/
def sbpSet (sbp : List (String × List (Nat × List Char))) (name : String)
    (k : Nat) (v : List Char) : List (String × List (Nat × List Char)) :=
  sbp.map (fun q => if q.1 = name then (q.1, dictSet q.2 k v) else q)

def sbpAppend (sbp : List (String × List (Nat × List Char))) (name : String)
    (k : Nat) (c : Char) : List (String × List (Nat × List Char)) :=
  sbp.map (fun q => if q.1 = name then (q.1, dictAppend q.2 k c) else q)

/-- The accumulating state of the block loop of `MafIndex.get_spliced`
(MafIO.py lines 598-664): `split_by_position`, the running
`total_rec_length`, and the first reference strand encountered. -/
structure SpliceState where
  split_by_position : List (String × List (Nat × List Char))
  total_rec_length : Nat
  ref_first_strand : Option Int

/-- One aligned column of the walk over a block (MafIO.py lines
650-659): every record appends its symbol at the current reference
position; `track_val` is (re)bound at the records whose id is the
reference id.  A column index beyond a record's text would raise
`IndexError` in Python (records of one block have equal length, so this
is unreachable); the model reads the gap symbol there. -/
def walkColumn (target : String) (multiseq : Block) (real_pos gapped_pos : Nat)
    (st : List (String × List (Nat × List Char)) × Char) :
    List (String × List (Nat × List Char)) × Char :=
  multiseq.foldl (fun acc seqrec =>
    let track_val := if seqrec.id = target then seqrec.text.getD gapped_pos '-' else acc.2
    (sbpAppend acc.1 seqrec.id real_pos (seqrec.text.getD gapped_pos '-'), track_val)) st

/-- The column loop of `MafIndex.get_spliced` (MafIO.py lines 646-664):
walk all `rec_length` columns, advancing the reference-position cursor
after a column whose reference symbol is not a gap while the cursor is
below `rec_end`. -/
def walkBlock (target : String) (multiseq : Block) (rec_start rec_end rec_length : Nat)
    (sbp0 : List (String × List (Nat × List Char))) :
    List (String × List (Nat × List Char)) × Nat × Char :=
  (List.range rec_length).foldl (fun st gapped_pos =>
    let col := walkColumn target multiseq st.2.1 gapped_pos (st.1, st.2.2)
    let real_pos' := if col.2 ≠ '-' ∧ st.2.1 < rec_end then st.2.1 + 1 else st.2.1
    (col.1, real_pos', col.2)) (sbp0, rec_start, '-')

/-- The strand bookkeeping of the block loop (MafIO.py lines 612-625):
record the first reference strand (it must be 1 or -1), and require
every later block to agree with it. -/
def checkStrand (prev : Option Int) (strand : Int) : Except String Int :=
  match prev with
  | none =>
    if strand = 1 ∨ strand = -1 then .ok strand
    else .error "Strand must be 1 or -1"
  | some r =>
    if r ≠ strand then .error "Encountered unexpected strand on target seqname"
    else .ok r

/-- The blanking loop (MafIO.py lines 635-638): reset the fragment of
every id of the block at every covered reference position. -/
def blankPositions (multiseq : Block) (rec_start rec_end : Nat)
    (sbp : List (String × List (Nat × List Char))) :
    List (String × List (Nat × List Char)) :=
  multiseq.foldl (fun acc sr =>
    (List.range' rec_start (rec_end + 1 - rec_start)).foldl
      (fun acc2 pos => sbpSet acc2 sr.id pos []) acc) sbp

/-- Processing of one fetched block inside `MafIndex.get_spliced`
(MafIO.py lines 607-664): find the reference record (its absence is an
error), validate/track the reference strand, blank the covered
positions for every id of the block, and walk the columns. -/
def processBlock (target : String) (st : SpliceState) (multiseq : Block) :
    Except String SpliceState :=
  match multiseq.find? (fun seqrec => seqrec.id == target) with
  | none => .error ("Did not find " ++ target ++ " in alignment bundle")
  | some seqrec =>
    match checkStrand st.ref_first_strand seqrec.strand with
    | .error e => .error e
    | .ok rfs =>
      let rec_end := seqrec.start + seqrec.size - 1
      let sbp1 := blankPositions multiseq seqrec.start rec_end st.split_by_position
      let walked := walkBlock target multiseq seqrec.start rec_end seqrec.text.length sbp1
      .ok ⟨walked.1, st.total_rec_length + seqrec.size, some rfs⟩

/-- Computation of `expected_letters` (MafIO.py line 580): the summed half-open exon
lengths. -/
def expected_letters_of (starts ends_ : List Nat) : Nat :=
  ((starts.zip ends_).map (fun p => p.2 - p.1)).sum

/-- The splice loop body for one sequence id (MafIO.py lines 686-719):
walk the exons left to right, taking the stored fragment when present,
length-matched filler when the reference covers the position, and a
single filler symbol otherwise. -/
def spliceOne (target : String) (starts ends_ : List Nat)
    (seq_split : List (Nat × List Char)) (realpos_to_len : List (Nat × Nat))
    (seqid : String) : List Char :=
  let filler_char : Char := if seqid = target then 'N' else '-'
  (starts.zip ends_).flatMap (fun p =>
    (List.range' p.1 (p.2 - p.1)).flatMap (fun real_pos =>
      match seq_split.lookup real_pos with
      | some frag => frag
      | none =>
        match realpos_to_len.lookup real_pos with
        | some n => List.replicate n filler_char
        | none => [filler_char]))

/-- The strand-independent part of `MafIndex.get_spliced`: either the
no-coverage fallback with its letter count, or the spliced per-id texts
(in first-appearance order of the ids, determinizing the Python `set`)
plus the reference strand of the first block. -/
inductive SpliceOutcome where
  | fallback (expected_letters : Nat)
  | spliced (subseq : List (String × List Char)) (ref_first_strand : Option Int)

/-- Computation of `all_seqnames` (MafIO.py lines 588-589): the union of the ids of
the fetched blocks.  The Python `set` iteration order is unspecified;
`dedup` determinizes it. -/
def all_seqnames_of (fetched : List Block) : List String :=
  (fetched.flatMap (fun multiseq => multiseq.map (fun sr => sr.id))).dedup

/-- The initial splice state (MafIO.py lines 598-605): an empty position
dict per id, zero total record length, no reference strand seen yet. -/
def initState (fetched : List Block) : SpliceState :=
  ⟨(all_seqnames_of fetched).map (fun n => (n, [])), 0, none⟩

/-- Computation of `realpos_to_len` and the splice loop (MafIO.py lines 674-719): the
gapped fragment lengths of the reference positions holding more than
one symbol, and the per-id spliced texts in `all_seqnames` order. -/
def buildSubseq (target : String) (starts ends_ : List Nat) (fetched : List Block)
    (stF : SpliceState) : List (String × List Char) :=
  let targetMap := (stF.split_by_position.lookup target).getD []
  let realpos_to_len := (targetMap.filter (fun p => decide (1 < p.2.length))).map
    (fun p => (p.1, p.2.length))
  (all_seqnames_of fetched).map (fun seqid =>
    (seqid, spliceOne target starts ends_
      ((stF.split_by_position.lookup seqid).getD []) realpos_to_len seqid))

/-- The two post-splice checks (MafIO.py lines 721-733): the reference's
ungapped spliced length must equal `expected_letters`, and every spliced
text must have the reference's length. -/
def finalChecks (target : String) (expected_letters : Nat)
    (subseq : List (String × List Char)) (rfs : Option Int) :
    Except String SpliceOutcome :=
  let ref_subseq := (subseq.lookup target).getD []
  if ref_subseq.countP (fun c => decide (c ≠ '-')) ≠ expected_letters then
    .error "Returning the wrong number of letters for target seqname"
  else if subseq.any (fun p => decide (p.2.length ≠ ref_subseq.length)) then
    .error "Returning the wrong sequence length"
  else
    .ok (.spliced subseq rfs)

/-- Steps 2-8 of `MafIndex.get_spliced` (MafIO.py lines 574-733): fetch
the blocks, fall back when none, accumulate `split_by_position` over the
blocks, check the covered-position count, build `realpos_to_len`, splice
every id, and run the two final length checks. -/
def get_spliced_core (entries : List IdxEntry) (file : List (Nat × Block))
    (target : String) (starts ends_ : List Nat) : Except String SpliceOutcome := do
  let fetched ← search entries file target starts ends_
  if fetched.length = 0 then
    .ok (.fallback (expected_letters_of starts ends_))
  else do
    let stF ← fetched.foldlM (processBlock target) (initState fetched)
    if ((stF.split_by_position.lookup target).getD []).length ≠ stF.total_rec_length then
      .error "Target seqname does not have the expected number of position records"
    else
      finalChecks target (expected_letters_of starts ends_)
        (buildSubseq target starts ends_ fetched stF) stF.ref_first_strand

/-- Steps 9-10 of `MafIndex.get_spliced` (MafIO.py lines 582-585 and
735-749): the no-coverage fallback record, or the per-id records with
every text reverse-complemented when the requested strand differs from
the reference strand of the first block (`seq if strand ==
ref_first_strand else seq.reverse_complement()`). -/
def applyStrand (target : String) (strand : Int) :
    SpliceOutcome → List (String × List Char)
  | .fallback expected_letters => [(target, List.replicate expected_letters 'N')]
  | .spliced subseq rfs =>
    subseq.map (fun p =>
      (p.1, if some strand = rfs then p.2 else reverse_complement p.2))

/-- Embedding of `MafIndex.get_spliced` (MafIO.py lines 554-749): validate the
strand, run the strand-independent core, and apply the strand
normalization to the outcome. -/
def get_spliced (entries : List IdxEntry) (file : List (Nat × Block))
    (target : String) (starts ends_ : List Nat) (strand : Int) :
    Except String (List (String × List Char)) :=
  if strand ≠ 1 ∧ strand ≠ -1 then .error "Strand must be 1 or -1"
  else
    match get_spliced_core entries file target starts ends_ with
    | .error e => .error e
    | .ok out => .ok (applyStrand target strand out)

/-- The kinds of physical lines `MafIndex.__maf_indexer` distinguishes
(MafIO.py lines 379-421): an `a` line opening a block, an `s` line with
its already-split and `int`-converted fields, a line with no
non-whitespace content, and any other line (`i`/`e`/`q`/`#`/...). -/
inductive LineK where
  | aLine
  | sLine (src : String) (start size : Nat) (text : List Char)
  | blank
  | other
deriving DecidableEq

/-- A physical line of the MAF file together with its byte length, so
that the `self._maf_fp.tell() - len(line)` offsets can be tracked. -/
structure MLine where
  kind : LineK
  len : Nat
deriving DecidableEq

/-- Python `len(text.replace("-", ""))`: the number of non-gap symbols. -/
def nongapLen (text : List Char) : Nat :=
  (text.filter (fun c => !(c == '-'))).length

/-- Embedding of `MafIndex.__maf_indexer` (MafIO.py lines 379-421) over the list of
remaining lines.  The first argument is `none` while scanning for the
next `a` line and `some offset` while scanning inside a block whose `a`
line began at byte `offset`; the `Nat` argument is the current byte
position of the handle.  Inside a block, a blank line, a new `a` line or
the end of the file before a reference `s` line is the
target-not-found error; on the reference `s` line the size is checked
against the non-gap text length, the entry is emitted (MAF coordinates
are recovered as `end = start + size - 1` with `size ≥ 1` in any
well-formed file; `Nat` subtraction is noted for `size = 0`), and the
scan returns to the outer mode. -/
def mafIdx (target : String) : Option Nat → Nat → List MLine →
    Except String (List IdxEntry)
  | none, _, [] => .ok []
  | none, pos, l :: rest =>
    match l.kind with
    | .aLine => mafIdx target (some pos) (pos + l.len) rest
    | _ => mafIdx target none (pos + l.len) rest
  | some _, _, [] =>
    .error ("Target for indexing (" ++ target ++ ") not found in this bundle")
  | some off, pos, l :: rest =>
    match l.kind with
    | .blank => .error ("Target for indexing (" ++ target ++ ") not found in this bundle")
    | .aLine => .error ("Target for indexing (" ++ target ++ ") not found in this bundle")
    | .other => mafIdx target (some off) (pos + l.len) rest
    | .sLine src start size text =>
      if src = target then
        if size ≠ nongapLen text then
          .error "Invalid length for target coordinates"
        else
          match mafIdx target none (pos + l.len) rest with
          | .error e => .error e
          | .ok entries =>
            .ok (⟨ucscbin start (start + size - 1 + 1), start, start + size - 1, off⟩
              :: entries)
      else mafIdx target (some off) (pos + l.len) rest

/-- The whole `__maf_indexer` generator run to completion from byte 0. -/
def mafIndexer (target : String) (lines : List MLine) : Except String (List IdxEntry) :=
  mafIdx target none 0 lines

/-- One well-shaped MAF block at the physical-line level: an `a` line,
body lines, and a terminating blank line. -/
structure MafBlock where
  aLen : Nat
  body : List MLine
  blankLen : Nat

def blockLines (b : MafBlock) : List MLine :=
  ⟨.aLine, b.aLen⟩ :: (b.body ++ [⟨.blank, b.blankLen⟩])

def sumLens (ls : List MLine) : Nat := (ls.map (fun l => l.len)).sum

def blockLen (b : MafBlock) : Nat := b.aLen + sumLens b.body + b.blankLen

/-- A block body holds no `a` line and no blank line (those terminate a
block). -/
def bodyShape (ls : List MLine) : Prop :=
  ∀ l ∈ ls, l.kind ≠ LineK.aLine ∧ l.kind ≠ LineK.blank

/-- The first `s` line of a body whose source id is the target: the
record `__maf_indexer` keys the block's entry on. -/
def findTargetS (target : String) : List MLine → Option (Nat × Nat × List Char)
  | [] => none
  | l :: rest =>
    match l.kind with
    | .sLine src start size text =>
      if src = target then some (start, size, text) else findTargetS target rest
    | _ => findTargetS target rest

/-- A block the indexer accepts: a well-shaped body containing a
reference `s` line of positive size whose size field matches its
non-gap text length. -/
def goodBlock (target : String) (b : MafBlock) : Prop :=
  bodyShape b.body ∧ ∃ st sz txt, findTargetS target b.body = some (st, sz, txt) ∧
    sz = nongapLen txt ∧ 1 ≤ sz

/-- The entries the indexer is expected to emit: one per block, binned
with `_ucscbin(start, end + 1)`, spanning `[start, start + size - 1]`,
at the byte offset where the block's `a` line begins. -/
def entriesOf (target : String) : Nat → List MafBlock → List IdxEntry
  | _, [] => []
  | pos, b :: bs =>
    match findTargetS target b.body with
    | some (start, size, _) =>
      ⟨ucscbin start (start + size - 1 + 1), start, start + size - 1, pos⟩
        :: entriesOf target (pos + blockLen b) bs
    | none => entriesOf target (pos + blockLen b) bs

def blocksLen : List MafBlock → Nat
  | [] => 0
  | b :: bs => blockLen b + blocksLen bs

theorem shiftRight_mono {a b : Nat} (k : Nat) (h : a ≤ b) : a >>> k ≤ b >>> k := by
  simp only [Nat.shiftRight_eq_div_pow]
  exact Nat.div_le_div_right h

theorem region2bin_zero_mem (s e : Nat) : 0 ∈ region2bin s e := by
  unfold region2bin
  simp [Finset.mem_union]

theorem region2bin_one_mem (s e : Nat) : 1 ∈ region2bin s e := by
  unfold region2bin
  simp [Finset.mem_union]

/-- The claim fails at start = 2^30, end = 2^30 + 2^26 + 1: the
fallthrough level of `_ucscbin` returns `start >> 29 = 2`, a bin number
that `_region2bin` never produces (it only adds bins 0 and 1 outside the
four shifted ranges). -/
theorem ucscbin_not_in_region2bin_at_2pow30 :
    ucscbin 1073741824 1140850689 = 2 ∧
      ucscbin 1073741824 1140850689 ∉ region2bin 1073741824 1140850689 := by
  constructor
  · decide
  · intro h
    unfold region2bin at h
    simp only [Finset.mem_union, Finset.mem_insert, Finset.mem_singleton,
      Finset.mem_Ico] at h
    revert h
    decide

/-- C1 (amended): for `s < e` and `e ≤ 2^30` (so the shifted-by-29 values
are at most 1), the smallest containing bin is a candidate bin. -/
theorem ucscbin_mem_region2bin (s e : Nat) (hlt : s < e) (hle : e ≤ 1073741824) :
    ucscbin s e ∈ region2bin s e := by
  have hse : s ≤ e - 1 := Nat.le_sub_one_of_lt hlt
  have h17 : s >>> 17 ≤ (e - 1) >>> 17 := shiftRight_mono 17 hse
  have h20 : s >>> 20 ≤ (e - 1) >>> 20 := shiftRight_mono 20 hse
  have h23 : s >>> 23 ≤ (e - 1) >>> 23 := shiftRight_mono 23 hse
  have h26 : s >>> 26 ≤ (e - 1) >>> 26 := shiftRight_mono 26 hse
  have e20 : ∀ x : Nat, x >>> 17 >>> 3 = x >>> 20 := by
    intro x; rw [show (20 : Nat) = 17 + 3 from rfl, Nat.shiftRight_add]
  have e23 : ∀ x : Nat, x >>> 20 >>> 3 = x >>> 23 := by
    intro x; rw [show (23 : Nat) = 20 + 3 from rfl, Nat.shiftRight_add]
  have e26 : ∀ x : Nat, x >>> 23 >>> 3 = x >>> 26 := by
    intro x; rw [show (26 : Nat) = 23 + 3 from rfl, Nat.shiftRight_add]
  have e29 : ∀ x : Nat, x >>> 26 >>> 3 = x >>> 29 := by
    intro x; rw [show (29 : Nat) = 26 + 3 from rfl, Nat.shiftRight_add]
  have h29small : s >>> 29 ≤ 1 := by
    have h1 : e - 1 ≤ 1073741823 := by omega
    have h2 : s >>> 29 ≤ (1073741823 : Nat) >>> 29 :=
      shiftRight_mono 29 (le_trans hse h1)
    have h3 : (1073741823 : Nat) >>> 29 = 1 := by decide
    omega
  unfold ucscbin region2bin
  simp only [e20, e23, e26, e29]
  split
  case isTrue h =>
    refine Finset.mem_union_right _ (Finset.mem_Ico.mpr ?_)
    omega
  case isFalse h0 =>
    split
    case isTrue h =>
      refine Finset.mem_union_left _ (Finset.mem_union_right _ (Finset.mem_Ico.mpr ?_))
      omega
    case isFalse h1 =>
      split
      case isTrue h =>
        refine Finset.mem_union_left _ (Finset.mem_union_left _
          (Finset.mem_union_right _ (Finset.mem_Ico.mpr ?_)))
        omega
      case isFalse h2 =>
        split
        case isTrue h =>
          refine Finset.mem_union_left _ (Finset.mem_union_left _
            (Finset.mem_union_left _ (Finset.mem_union_right _ (Finset.mem_Ico.mpr ?_))))
          omega
        case isFalse h3 =>
          split
          case isTrue h =>
            have : s >>> 29 = 0 ∨ s >>> 29 = 1 := by omega
            rcases this with h' | h'
            · rw [Nat.zero_add, h']
              exact region2bin_zero_mem s e
            · rw [Nat.zero_add, h']
              exact region2bin_one_mem s e
          case isFalse h4 =>
            exact region2bin_zero_mem s e

theorem ucscbin_mem_region2bin_witness :
    0 < 1 ∧ (1 : Nat) ≤ 1073741824 ∧ ucscbin 0 1 ∈ region2bin 0 1 :=
  ⟨by decide, by decide, ucscbin_mem_region2bin 0 1 (by decide) (by decide)⟩

/-- Two indexed blocks, one at reference span [0, 4] and one at
[100, 104]; querying the intervals in the order [100,105), [0,5) makes
`search` yield the block at reference start 100 before the block at
reference start 0: the output is ordered only within each interval,
with rows (100,104,20) before (0,4,10). -/
theorem search_not_globally_ordered :
    search [⟨585, 0, 4, 10⟩, ⟨585, 100, 104, 20⟩]
        [(10, [⟨"mm9.chr10", 0, 5, 1, 1000, "ACGTA".toList⟩]),
         (20, [⟨"mm9.chr10", 100, 5, 1, 1000, "CCGTA".toList⟩])]
        "mm9.chr10" [100, 0] [105, 5] =
      .ok [[⟨"mm9.chr10", 100, 5, 1, 1000, "CCGTA".toList⟩],
           [⟨"mm9.chr10", 0, 5, 1, 1000, "ACGTA".toList⟩]] ∧
      searchRows [⟨585, 0, 4, 10⟩, ⟨585, 100, 104, 20⟩] [100, 0] [105, 5] =
        .ok [(100, 104, 20), (0, 4, 10)] ∧
      ¬ List.Sorted rowLE [(100, 104, 20), (0, 4, 10)] := by
  refine ⟨by rfl, by rfl, ?_⟩
  intro h
  have h' := List.rel_of_sorted_cons h (0, 4, 10) (by simp)
  unfold rowLE at h'
  omega

/-- C2 (amended): the output of `search` is the concatenation, in the
order the query intervals were given, of per-interval results, and each
per-interval result is sorted by `(start, end, offset)` ascending; the
whole output is not globally sorted in general. -/
theorem search_sorted_per_interval (entries : List IdxEntry) (starts ends_ : List Nat)
    (rows : List (Nat × Nat × Nat))
    (h : searchRows entries starts ends_ = .ok rows) :
    rows = (starts.zip ends_).flatMap (fun p => searchRowsOne entries p.1 p.2) ∧
      ∀ s e, List.Sorted rowLE (searchRowsOne entries s e) := by
  constructor
  · unfold searchRows at h
    split at h
    · exact absurd h (by simp)
    · split at h
      · exact absurd h (by simp)
      · exact (Except.ok.injEq _ _ ▸ h).symm
  · intro s e
    exact List.sorted_insertionSort rowLE _

theorem search_sorted_per_interval_witness :
    ([] : List (Nat × Nat × Nat)) =
        (([0].zip [5]).flatMap (fun p => searchRowsOne [] p.1 p.2)) ∧
      ∀ s e, List.Sorted rowLE (searchRowsOne ([] : List IdxEntry) s e) :=
  search_sorted_per_interval [] [0] [5] [] (by rfl)

theorem parseSLineFields_strand (records : List PSeqRec)
    (m src startF sizeF strandF srcSizeF textF : String)
    (r : PSeqRec)
    (h : parseSLineFields records [m, src, startF, sizeF, strandF, srcSizeF, textF] = .ok r) :
    r.strand = parseStrandField strandF := by
  unfold parseSLineFields at h
  simp only [bind, Except.bind] at h
  cases h2 : parseNat startF with
  | error e => rw [h2] at h; simp at h
  | ok v2 =>
    rw [h2] at h
    cases h3 : parseNat sizeF with
    | error e => rw [h3] at h; simp at h
    | ok v3 =>
      rw [h3] at h
      cases h5 : parseNat srcSizeF with
      | error e => rw [h5] at h; simp at h
      | ok v5 =>
        rw [h5] at h
        cases h6 : interpretDots records textF.toList with
        | error e => rw [h6] at h; simp at h
        | ok v6 =>
          rw [h6] at h
          cases h
          rfl

/-- C3 counterexample: an `i` line inside a block is silently passed
over, not rejected, although it is neither a sequence line, a comment
line, nor a blank line. -/
theorem bundleLine_i_line_skipped :
    bundleLine [] "i mm9.chr10 N 0 N 0" = BundleStep.skip := by rfl

/-- C3 (amended): inside a block, lines starting with `i`, `e` or `q`
are silently passed over just like `#` comments; every line that starts
with none of `s`, `i`, `e`, `q`, `#` and is not blank raises the
unexpected-line `ValueError`. -/
theorem bundleLine_unexpected_fails (records : List PSeqRec) (line : String)
    (hs : lineStartsWith line 's' = false) (hi : lineStartsWith line 'i' = false)
    (he : lineStartsWith line 'e' = false) (hq : lineStartsWith line 'q' = false)
    (hc : lineStartsWith line '#' = false) (hb : lineBlank line = false) :
    bundleLine records line =
      .fail ("Error parsing alignment - unexpected line:\n" ++ line) := by
  unfold bundleLine
  simp [hs, hi, he, hq, hc, hb]

theorem bundleLine_unexpected_fails_witness :
    bundleLine [] "x" = .fail ("Error parsing alignment - unexpected line:\nx") :=
  bundleLine_unexpected_fails [] "x" (by rfl) (by rfl) (by rfl) (by rfl) (by rfl)
    (by decide)

/-- C9: a dot/period in the text of the first sequence line of a block
is an error (no record is produced), while on any later sequence line
the dot expansion always succeeds and produces a record text. -/
theorem dot_in_first_sequence_errors (sequence : List Char) (hdot : '.' ∈ sequence) :
    interpretDots [] sequence = .error "Found dot/period in first sequence of alignment" ∧
      ∀ (r : PSeqRec) (rs : List PSeqRec) (s : List Char),
        ∃ t, interpretDots (r :: rs) s = .ok t := by
  constructor
  · unfold interpretDots
    simp [hdot]
  · intro r rs s
    by_cases h : '.' ∈ s
    · refine ⟨(s.zip r.text).map (fun p => if p.1 = '.' then p.2 else p.1), ?_⟩
      unfold interpretDots
      rw [if_pos h]
    · refine ⟨s, ?_⟩
      unfold interpretDots
      rw [if_neg h]

theorem dot_in_first_sequence_errors_witness :
    interpretDots [] ['.'] = .error "Found dot/period in first sequence of alignment" ∧
      ∀ (r : PSeqRec) (rs : List PSeqRec) (s : List Char),
        ∃ t, interpretDots (r :: rs) s = .ok t :=
  dot_in_first_sequence_errors ['.'] (by decide)

/-- C10: a strand field other than `+` or `-` is accepted: the parse of
the `s` line is the same as with an explicit `+`, and any record it
produces carries strand `1`. -/
theorem strand_field_fallthrough (records : List PSeqRec)
    (src st sz ss txt f : String) (hp : f ≠ "+") (hm : f ≠ "-") :
    parseSLineFields records ["s", src, st, sz, f, ss, txt] =
        parseSLineFields records ["s", src, st, sz, "+", ss, txt] ∧
      ∀ r : PSeqRec,
        parseSLineFields records ["s", src, st, sz, f, ss, txt] = .ok r →
          r.strand = 1 := by
  have hstrand : parseStrandField f = parseStrandField "+" := by
    unfold parseStrandField
    simp [hp, hm]
  constructor
  · simp only [parseSLineFields]
    rw [hstrand]
  · intro r hr
    have hst := parseSLineFields_strand records "s" src st sz f ss txt r hr
    rw [hst, hstrand]
    rfl

theorem strand_field_fallthrough_witness :
    parseSLineFields [] ["s", "mm9.chr10", "0", "2", "?", "100", "AC"] =
        parseSLineFields [] ["s", "mm9.chr10", "0", "2", "+", "100", "AC"] ∧
      ∀ r : PSeqRec,
        parseSLineFields [] ["s", "mm9.chr10", "0", "2", "?", "100", "AC"] = .ok r →
          r.strand = 1 :=
  strand_field_fallthrough [] "mm9.chr10" "0" "2" "100" "AC" "?" (by decide) (by decide)

/-- C7: opening an existing index database succeeds exactly when the
stored version equals the engine version, the stored filename and
reference id equal the requested ones, the stored record count is not
the in-progress sentinel -1, and the stored entry count equals the
stored record count. -/
theorem check_existing_db_ok_iff (meta : DBMeta) (records_found : Nat)
    (maf_file target_seqname : String) :
    (check_existing_db meta records_found maf_file target_seqname).isOk = true ↔
      (meta.version = MAFINDEX_VERSION ∧ meta.filename = maf_file ∧
        meta.target_seqname = target_seqname ∧ meta.record_count ≠ -1 ∧
        (records_found : Int) = meta.record_count) := by
  unfold check_existing_db
  repeat' split
  all_goals simp_all [Except.isOk, Except.toBool]

theorem complementBase_eq_self (c : Char) (h1 : c ≠ 'A') (h2 : c ≠ 'T')
    (h3 : c ≠ 'C') (h4 : c ≠ 'G') (h5 : c ≠ 'a') (h6 : c ≠ 't')
    (h7 : c ≠ 'c') (h8 : c ≠ 'g') : complementBase c = c := by
  unfold complementBase
  simp [h1, h2, h3, h4, h5, h6, h7, h8]

theorem complementBase_gap (c : Char) : complementBase c = '-' ↔ c = '-' := by
  by_cases h1 : c = 'A'
  · subst h1; decide
  by_cases h2 : c = 'T'
  · subst h2; decide
  by_cases h3 : c = 'C'
  · subst h3; decide
  by_cases h4 : c = 'G'
  · subst h4; decide
  by_cases h5 : c = 'a'
  · subst h5; decide
  by_cases h6 : c = 't'
  · subst h6; decide
  by_cases h7 : c = 'c'
  · subst h7; decide
  by_cases h8 : c = 'g'
  · subst h8; decide
  rw [complementBase_eq_self c h1 h2 h3 h4 h5 h6 h7 h8]

theorem complementBase_involutive (c : Char) :
    complementBase (complementBase c) = c := by
  by_cases h1 : c = 'A'
  · subst h1; decide
  by_cases h2 : c = 'T'
  · subst h2; decide
  by_cases h3 : c = 'C'
  · subst h3; decide
  by_cases h4 : c = 'G'
  · subst h4; decide
  by_cases h5 : c = 'a'
  · subst h5; decide
  by_cases h6 : c = 't'
  · subst h6; decide
  by_cases h7 : c = 'c'
  · subst h7; decide
  by_cases h8 : c = 'g'
  · subst h8; decide
  rw [complementBase_eq_self c h1 h2 h3 h4 h5 h6 h7 h8,
    complementBase_eq_self c h1 h2 h3 h4 h5 h6 h7 h8]

theorem reverse_complement_length (s : List Char) :
    (reverse_complement s).length = s.length := by
  unfold reverse_complement
  simp

theorem countP_nongap_revcomp (s : List Char) :
    (reverse_complement s).countP (fun c => decide (c ≠ '-')) =
      s.countP (fun c => decide (c ≠ '-')) := by
  unfold reverse_complement
  rw [List.countP_reverse, List.countP_map]
  apply List.countP_congr
  intro a _
  simp only [Function.comp_apply, decide_eq_true_eq]
  exact not_congr (complementBase_gap a)

theorem reverse_complement_involutive (s : List Char) :
    reverse_complement (reverse_complement s) = s := by
  unfold reverse_complement
  rw [List.map_reverse, List.reverse_reverse, List.map_map]
  have h : complementBase ∘ complementBase = id := by
    funext c
    exact complementBase_involutive c
  rw [h, List.map_id]

theorem reverse_complement_replicate_N (n : Nat) :
    reverse_complement (List.replicate n 'N') = List.replicate n 'N' := by
  unfold reverse_complement
  rw [List.map_replicate, List.reverse_replicate]
  have : complementBase 'N' = 'N' := by decide
  rw [this]

theorem checkStrand_ok (prev : Option Int) (strand v : Int)
    (h : checkStrand prev strand = .ok v) :
    (prev = none → (v = 1 ∨ v = -1)) ∧ (∀ u, prev = some u → v = u) := by
  cases prev with
  | none =>
    unfold checkStrand at h
    by_cases hs : strand = 1 ∨ strand = -1
    · rw [if_pos hs] at h
      cases h
      exact ⟨fun _ => hs, fun u hu => by cases hu⟩
    · rw [if_neg hs] at h
      cases h
  | some r =>
    simp only [checkStrand] at h
    by_cases hr : r ≠ strand
    · rw [if_pos hr] at h
      cases h
    · rw [if_neg hr] at h
      cases h
      constructor
      · intro hn
        cases hn
      · intro u hu
        cases hu
        rfl

theorem processBlock_ok_inv (target : String) (st : SpliceState) (ms : Block)
    (st' : SpliceState) (h : processBlock target st ms = .ok st') :
    target ∈ ms.map (fun sr => sr.id) ∧
      ∃ v, st'.ref_first_strand = some v ∧
        (st.ref_first_strand = none → (v = 1 ∨ v = -1)) ∧
        (∀ u, st.ref_first_strand = some u → v = u) := by
  unfold processBlock at h
  split at h
  · cases h
  · rename_i seqrec hf
    have hmem : target ∈ ms.map (fun sr => sr.id) := by
      have hin := List.mem_of_find?_eq_some hf
      have hpred := List.find?_some hf
      simp only [beq_iff_eq] at hpred
      exact List.mem_map.mpr ⟨seqrec, hin, hpred⟩
    refine ⟨hmem, ?_⟩
    split at h
    · cases h
    · rename_i rfs hcs
      cases h
      exact ⟨rfs, rfl, (checkStrand_ok _ _ _ hcs).1, (checkStrand_ok _ _ _ hcs).2⟩

theorem foldlM_processBlock_keeps (target : String) (blocks : List Block)
    (st st' : SpliceState)
    (h : List.foldlM (processBlock target) st blocks = .ok st')
    (hst : st.ref_first_strand = some 1 ∨ st.ref_first_strand = some (-1)) :
    st'.ref_first_strand = some 1 ∨ st'.ref_first_strand = some (-1) := by
  induction blocks generalizing st with
  | nil =>
    simp only [List.foldlM_nil] at h
    cases h
    exact hst
  | cons b bs ih =>
    rw [List.foldlM_cons] at h
    cases hb : processBlock target st b with
    | error e =>
      rw [hb] at h
      cases h
    | ok st1 =>
      rw [hb] at h
      simp only [bind, Except.bind] at h
      obtain ⟨-, v, hv, -, hsome⟩ := processBlock_ok_inv target st b st1 hb
      apply ih st1 h
      rcases hst with h1 | h1
      · rw [hv, hsome 1 h1]
        exact Or.inl rfl
      · rw [hv, hsome (-1) h1]
        exact Or.inr rfl

theorem foldlM_processBlock_inv (target : String) (b : Block) (bs : List Block)
    (st st' : SpliceState)
    (h : List.foldlM (processBlock target) st (b :: bs) = .ok st')
    (hst : st.ref_first_strand = none) :
    target ∈ b.map (fun sr => sr.id) ∧
      (st'.ref_first_strand = some 1 ∨ st'.ref_first_strand = some (-1)) := by
  rw [List.foldlM_cons] at h
  cases hb : processBlock target st b with
  | error e =>
    rw [hb] at h
    cases h
  | ok st1 =>
    rw [hb] at h
    simp only [bind, Except.bind] at h
    obtain ⟨hmem, v, hv, hnone, -⟩ := processBlock_ok_inv target st b st1 hb
    refine ⟨hmem, foldlM_processBlock_keeps target bs st1 st' h ?_⟩
    rcases hnone hst with h1 | h1
    · rw [hv, h1]
      exact Or.inl rfl
    · rw [hv, h1]
      exact Or.inr rfl

theorem lookup_map_self {β : Type} (names : List String) (f : String → β)
    (t : String) (ht : t ∈ names) :
    (names.map (fun n => (n, f n))).lookup t = some (f t) := by
  induction names with
  | nil => cases ht
  | cons a as ih =>
    by_cases h : t = a
    · subst h
      simp [List.lookup]
    · have hba : (t == a) = false := beq_eq_false_iff_ne.mpr h
      simp only [List.map_cons, List.lookup, hba]
      rcases List.mem_cons.mp ht with h1 | h1
      · exact absurd h1 h
      · exact ih h1

theorem finalChecks_ok_inv (target : String) (expected_letters : Nat)
    (subseq : List (String × List Char)) (rfs : Option Int) (out : SpliceOutcome)
    (h : finalChecks target expected_letters subseq rfs = .ok out) :
    out = .spliced subseq rfs ∧
      ((subseq.lookup target).getD []).countP (fun c => decide (c ≠ '-')) =
        expected_letters ∧
      ∀ p ∈ subseq, p.2.length = ((subseq.lookup target).getD []).length := by
  simp only [finalChecks] at h
  split at h
  · cases h
  · rename_i hcount
    split at h
    · cases h
    · rename_i hany
      cases h
      refine ⟨rfl, by omega, ?_⟩
      intro p hp
      rw [Bool.not_eq_true] at hany
      have hp2 := List.any_eq_false.mp hany p hp
      simp only [decide_eq_true_eq] at hp2
      omega

theorem get_spliced_eq_ok (entries : List IdxEntry) (file : List (Nat × Block))
    (target : String) (starts ends_ : List Nat) (strand : Int) (out : SpliceOutcome)
    (hval : ¬(strand ≠ 1 ∧ strand ≠ -1))
    (hc : get_spliced_core entries file target starts ends_ = .ok out) :
    get_spliced entries file target starts ends_ strand =
      .ok (applyStrand target strand out) := by
  unfold get_spliced
  rw [if_neg hval, hc]

theorem get_spliced_eq_err (entries : List IdxEntry) (file : List (Nat × Block))
    (target : String) (starts ends_ : List Nat) (strand : Int) (e : String)
    (hval : ¬(strand ≠ 1 ∧ strand ≠ -1))
    (hc : get_spliced_core entries file target starts ends_ = .error e) :
    get_spliced entries file target starts ends_ strand = .error e := by
  unfold get_spliced
  rw [if_neg hval, hc]

theorem except_bind_ok {α β : Type} (x : Except String α) (f : α → Except String β)
    (b : β) (h : (x >>= f) = .ok b) : ∃ a, x = .ok a ∧ f a = .ok b := by
  cases x with
  | error e => simp [bind, Except.bind] at h
  | ok a =>
    refine ⟨a, rfl, ?_⟩
    simpa [bind, Except.bind] using h

theorem get_spliced_core_cases (entries : List IdxEntry) (file : List (Nat × Block))
    (target : String) (starts ends_ : List Nat) (out : SpliceOutcome)
    (h : get_spliced_core entries file target starts ends_ = .ok out) :
    out = .fallback (expected_letters_of starts ends_) ∨
      ∃ subseq rfs, out = .spliced subseq rfs ∧
        (∃ refT, subseq.lookup target = some refT ∧ (target, refT) ∈ subseq ∧
          refT.countP (fun c => decide (c ≠ '-')) = expected_letters_of starts ends_ ∧
          ∀ p ∈ subseq, p.2.length = refT.length) ∧
        (rfs = some 1 ∨ rfs = some (-1)) := by
  unfold get_spliced_core at h
  obtain ⟨fetched, hs, h2⟩ := except_bind_ok _ _ _ h
  split at h2
  · cases h2
    exact Or.inl rfl
  · rename_i hlen
    obtain ⟨stF, hfold, h3⟩ := except_bind_ok _ _ _ h2
    split at h3
    · cases h3
    · obtain ⟨hout, hcount, hlens⟩ := finalChecks_ok_inv _ _ _ _ _ h3
      cases fetched with
      | nil => simp at hlen
      | cons b bs =>
        obtain ⟨hmem, hrfs⟩ := foldlM_processBlock_inv target b bs _ stF hfold rfl
        have hall : target ∈ all_seqnames_of (b :: bs) := by
          unfold all_seqnames_of
          rw [List.mem_dedup]
          exact List.mem_flatMap.mpr ⟨b, List.mem_cons_self b bs, hmem⟩
        have hlu : (buildSubseq target starts ends_ (b :: bs) stF).lookup target =
            some (spliceOne target starts ends_
              ((stF.split_by_position.lookup target).getD [])
              ((((stF.split_by_position.lookup target).getD []).filter
                  (fun p => decide (1 < p.2.length))).map
                (fun p => (p.1, p.2.length))) target) := by
          unfold buildSubseq
          exact lookup_map_self (all_seqnames_of (b :: bs)) _ target hall
        refine Or.inr ⟨buildSubseq target starts ends_ (b :: bs) stF,
          stF.ref_first_strand, hout, ?_, hrfs⟩
        refine ⟨_, hlu, ?_, ?_, ?_⟩
        · unfold buildSubseq
          exact List.mem_map.mpr ⟨target, hall, rfl⟩
        · rw [hlu] at hcount
          exact hcount
        · rw [hlu] at hlens
          exact hlens

/-- C4: whenever `get_spliced` returns an alignment, the reference
record's text has exactly `expected_letters` non-gap symbols and all
returned texts have equal length; the code checks both before returning
(raising `ValueError` otherwise) and the strand normalization preserves
both. -/
theorem get_spliced_postconditions (entries : List IdxEntry) (file : List (Nat × Block))
    (target : String) (starts ends_ : List Nat) (strand : Int)
    (recs : List (String × List Char))
    (h : get_spliced entries file target starts ends_ strand = .ok recs) :
    ∃ refText, (target, refText) ∈ recs ∧
      refText.countP (fun c => decide (c ≠ '-')) = expected_letters_of starts ends_ ∧
      ∀ p ∈ recs, p.2.length = refText.length := by
  unfold get_spliced at h
  split at h
  · cases h
  · cases hc : get_spliced_core entries file target starts ends_ with
    | error e =>
      rw [hc] at h
      exact Except.noConfusion h
    | ok out =>
    rw [hc] at h
    have hrecs : applyStrand target strand out = recs := Except.ok.inj h
    rcases get_spliced_core_cases _ _ _ _ _ _ hc with hfb |
      ⟨subseq, rfs, hsp, ⟨refT, hlu, hmemT, hcount, hlens⟩, hrfs⟩
    · subst hfb
      rw [← hrecs]
      simp only [applyStrand]
      refine ⟨List.replicate (expected_letters_of starts ends_) 'N',
        List.mem_singleton.mpr rfl, ?_, ?_⟩
      · rw [List.countP_replicate]
        simp
      · intro p hp
        rw [List.mem_singleton] at hp
        subst hp
        rfl
    · subst hsp
      rw [← hrecs]
      simp only [applyStrand]
      refine ⟨(if some strand = rfs then refT else reverse_complement refT), ?_, ?_, ?_⟩
      · exact List.mem_map.mpr ⟨(target, refT), hmemT, rfl⟩
      · by_cases hb : some strand = rfs
        · rw [if_pos hb]
          exact hcount
        · rw [if_neg hb, countP_nongap_revcomp]
          exact hcount
      · intro p hp
        obtain ⟨q, hq, hfq⟩ := List.mem_map.mp hp
        have hlq := hlens q hq
        rw [← hfq]
        by_cases hb : some strand = rfs
        · simp only [if_pos hb]
          exact hlq
        · simp only [if_neg hb, reverse_complement_length]
          exact hlq

theorem get_spliced_postconditions_witness :
    ∃ refText, ("mm9.chr10", refText) ∈ [("mm9.chr10", List.replicate 3 'N')] ∧
      refText.countP (fun c => decide (c ≠ '-')) = expected_letters_of [0] [3] ∧
      ∀ p ∈ [("mm9.chr10", List.replicate 3 'N')], p.2.length = refText.length :=
  get_spliced_postconditions [] [] "mm9.chr10" [0] [3] 1
    [("mm9.chr10", List.replicate 3 'N')] (by rfl)

/-- C5: when the `+1`-strand and `-1`-strand requests both succeed, the
`-1` result is record-by-record the reverse complement of the `+1`
result (equivalently vice versa, since reverse-complement is an
involution): the spliced texts are reverse-complemented exactly when
the requested strand differs from the first block's reference strand. -/
theorem get_spliced_strand_mismatch_revcomp (entries : List IdxEntry)
    (file : List (Nat × Block)) (target : String) (starts ends_ : List Nat)
    (r1 r2 : List (String × List Char))
    (h1 : get_spliced entries file target starts ends_ 1 = .ok r1)
    (h2 : get_spliced entries file target starts ends_ (-1) = .ok r2) :
    r2 = r1.map (fun p => (p.1, reverse_complement p.2)) := by
  unfold get_spliced at h1 h2
  rw [if_neg (by decide : ¬((1 : Int) ≠ 1 ∧ (1 : Int) ≠ -1))] at h1
  rw [if_neg (by decide : ¬((-1 : Int) ≠ 1 ∧ (-1 : Int) ≠ -1))] at h2
  cases hc1 : get_spliced_core entries file target starts ends_ with
  | error e =>
    rw [hc1] at h1
    exact Except.noConfusion h1
  | ok out =>
  rw [hc1] at h1 h2
  have e1 : applyStrand target 1 out = r1 := Except.ok.inj h1
  have e2 : applyStrand target (-1) out = r2 := Except.ok.inj h2
  rcases get_spliced_core_cases _ _ _ _ _ _ hc1 with hfb |
    ⟨subseq, rfs, hsp, -, hrfs⟩
  · subst hfb
    rw [← e1, ← e2]
    simp only [applyStrand, List.map_cons, List.map_nil]
    rw [reverse_complement_replicate_N]
  · subst hsp
    rw [← e1, ← e2]
    simp only [applyStrand]
    rw [List.map_map]
    apply List.map_congr_left
    intro p _
    rcases hrfs with hr | hr <;> subst hr
    · simp [reverse_complement_involutive]
    · simp [reverse_complement_involutive]

theorem get_spliced_strand_mismatch_revcomp_witness :
    [("mm9.chr10", "CGT".toList), ("felCat3", "GGT".toList)] =
      ([("mm9.chr10", "ACG".toList), ("felCat3", "ACC".toList)]).map
        (fun p => (p.1, reverse_complement p.2)) :=
  get_spliced_strand_mismatch_revcomp [⟨585, 100, 104, 10⟩]
    [(10, [⟨"mm9.chr10", 100, 5, 1, 1000, "ACGTA".toList⟩,
           ⟨"felCat3", 200, 5, 1, 500, "ACCTA".toList⟩])]
    "mm9.chr10" [100] [103]
    [("mm9.chr10", "ACG".toList), ("felCat3", "ACC".toList)]
    [("mm9.chr10", "CGT".toList), ("felCat3", "GGT".toList)]
    (by rfl) (by rfl)

/-- C6: when no indexed entry overlaps any query interval (intervals
valid, entries well formed), `get_spliced` returns, without error, the
single reference record filled with `expected_letters` times `N`. -/
theorem get_spliced_no_coverage (entries : List IdxEntry) (file : List (Nat × Block))
    (target : String) (starts ends_ : List Nat) (strand : Int)
    (hlen : starts.length = ends_.length)
    (hpos : ∀ p ∈ starts.zip ends_, p.1 < p.2)
    (hwf : ∀ ent ∈ entries, ent.start ≤ ent.end_)
    (hdisj : ∀ ent ∈ entries, ∀ p ∈ starts.zip ends_, ent.end_ < p.1 ∨ p.2 ≤ ent.start)
    (hstrand : strand = 1 ∨ strand = -1) :
    get_spliced entries file target starts ends_ strand =
      .ok [(target, List.replicate (expected_letters_of starts ends_) 'N')] := by
  have hrows : searchRows entries starts ends_ = .ok [] := by
    unfold searchRows
    rw [if_neg (not_not_intro hlen)]
    have hany : ((starts.zip ends_).any (fun p => decide (p.2 - p.1 < 1))) = false := by
      rw [List.any_eq_false]
      intro p hp
      simp only [decide_eq_true_eq]
      have := hpos p hp
      omega
    have hcond : ¬(((starts.zip ends_).any (fun p => decide (p.2 - p.1 < 1))) = true) := by
      rw [hany]
      simp
    rw [if_neg hcond]
    congr 1
    rw [List.flatMap_eq_nil_iff]
    intro p hp
    unfold searchRowsOne
    have hfil : entries.filter (fun ent =>
        decide (ent.bin ∈ region2bin p.1 p.2 ∧
          ((p.1 ≤ ent.end_ ∧ ent.end_ ≤ p.2 - 1) ∨
           (ent.start ≤ p.2 - 1 ∧ p.2 - 1 ≤ ent.end_)))) = [] := by
      rw [List.filter_eq_nil_iff]
      intro ent hent
      simp only [decide_eq_true_eq]
      intro hcond
      have h1 := hwf ent hent
      have h2 := hdisj ent hent p hp
      have h3 := hpos p hp
      rcases hcond with ⟨-, hov⟩
      omega
    rw [hfil]
    rfl
  have hsearch : search entries file target starts ends_ = .ok [] := by
    unfold search
    simp only [hrows, bind, Except.bind]
    rfl
  have hcore : get_spliced_core entries file target starts ends_ =
      .ok (.fallback (expected_letters_of starts ends_)) := by
    unfold get_spliced_core
    simp only [hsearch, bind, Except.bind]
    rfl
  have hval : ¬(strand ≠ 1 ∧ strand ≠ -1) := by
    rcases hstrand with h | h <;> simp [h]
  rw [get_spliced_eq_ok entries file target starts ends_ strand _ hval hcore]
  rfl

theorem get_spliced_no_coverage_witness :
    get_spliced [⟨585, 0, 4, 10⟩] [] "mm9.chr10" [10] [12] 1 =
      .ok [("mm9.chr10", List.replicate (expected_letters_of [10] [12]) 'N')] :=
  get_spliced_no_coverage [⟨585, 0, 4, 10⟩] [] "mm9.chr10" [10] [12] 1
    (by rfl) (by decide) (by decide) (by decide) (Or.inl rfl)

theorem sumLens_cons (l : MLine) (ls : List MLine) :
    sumLens (l :: ls) = l.len + sumLens ls := by
  unfold sumLens
  rw [List.map_cons, List.sum_cons]

theorem sumLens_append (ls ls' : List MLine) :
    sumLens (ls ++ ls') = sumLens ls + sumLens ls' := by
  unfold sumLens
  rw [List.map_append, List.sum_append]

theorem mafIdx_skip (t : String) (ls : List MLine) :
    ∀ (pos : Nat) (rest : List MLine), (∀ l ∈ ls, l.kind ≠ LineK.aLine) →
      mafIdx t none pos (ls ++ rest) = mafIdx t none (pos + sumLens ls) rest := by
  induction ls with
  | nil =>
    intro pos rest _
    simp [sumLens]
  | cons l ls ih =>
    intro pos rest h
    have hl := h l (List.mem_cons_self l ls)
    have hrest : ∀ x ∈ ls, x.kind ≠ LineK.aLine :=
      fun x hx => h x (List.mem_cons_of_mem l hx)
    rw [List.cons_append, sumLens_cons]
    cases hk : l.kind with
    | aLine => exact absurd hk hl
    | sLine src st sz txt =>
      simp only [mafIdx, hk]
      rw [ih (pos + l.len) rest hrest]
      congr 1
      omega
    | blank =>
      simp only [mafIdx, hk]
      rw [ih (pos + l.len) rest hrest]
      congr 1
      omega
    | other =>
      simp only [mafIdx, hk]
      rw [ih (pos + l.len) rest hrest]
      congr 1
      omega

theorem mafIdx_inner (t : String) (off bl : Nat) (body : List MLine) :
    ∀ (pos : Nat) (rest : List MLine), bodyShape body →
      mafIdx t (some off) pos (body ++ ⟨LineK.blank, bl⟩ :: rest) =
        match findTargetS t body with
        | none => .error ("Target for indexing (" ++ t ++ ") not found in this bundle")
        | some (st, sz, txt) =>
          if sz ≠ nongapLen txt then .error "Invalid length for target coordinates"
          else
            match mafIdx t none (pos + sumLens body + bl) rest with
            | .error e => .error e
            | .ok es =>
              .ok (⟨ucscbin st (st + sz - 1 + 1), st, st + sz - 1, off⟩ :: es) := by
  induction body with
  | nil =>
    intro pos rest _
    rfl
  | cons l body ih =>
    intro pos rest hshape
    have hl := hshape l (List.mem_cons_self l body)
    have hrest : bodyShape body := fun x hx => hshape x (List.mem_cons_of_mem l hx)
    rw [List.cons_append, sumLens_cons]
    cases hk : l.kind with
    | aLine => exact absurd hk hl.1
    | blank => exact absurd hk hl.2
    | other =>
      simp only [mafIdx, hk]
      rw [ih (pos + l.len) rest hrest]
      simp only [findTargetS, hk]
      have harith : pos + l.len + sumLens body + bl = pos + (l.len + sumLens body) + bl := by
        omega
      rw [harith]
    | sLine src st sz txt =>
      by_cases hsrc : src = t
      · simp only [mafIdx, hk, if_pos hsrc]
        simp only [findTargetS, hk, if_pos hsrc]
        have hna : ∀ x ∈ body ++ [(⟨LineK.blank, bl⟩ : MLine)], x.kind ≠ LineK.aLine := by
          intro x hx
          rcases List.mem_append.mp hx with hx1 | hx1
          · exact (hrest x hx1).1
          · rw [List.mem_singleton.mp hx1]
            intro hcon
            cases hcon
        have hskip : mafIdx t none (pos + l.len) (body ++ ⟨LineK.blank, bl⟩ :: rest) =
            mafIdx t none (pos + l.len + (sumLens body + bl)) rest := by
          rw [List.append_cons,
            mafIdx_skip t (body ++ [MLine.mk LineK.blank bl]) (pos + l.len) rest hna,
            sumLens_append]
          have hbl : sumLens [MLine.mk LineK.blank bl] = bl := by
            unfold sumLens
            simp
          rw [hbl]
        rw [hskip]
        have harith : pos + l.len + (sumLens body + bl) = pos + (l.len + sumLens body) + bl := by
          omega
        rw [harith]
      · simp only [mafIdx, hk, if_neg hsrc]
        rw [ih (pos + l.len) rest hrest]
        simp only [findTargetS, hk, if_neg hsrc]
        have harith : pos + l.len + sumLens body + bl = pos + (l.len + sumLens body) + bl := by
          omega
        rw [harith]

theorem mafIdx_block (t : String) (b : MafBlock) (rest : List MLine)
    (hshape : bodyShape b.body) (pos : Nat) :
    mafIdx t none pos (blockLines b ++ rest) =
      match findTargetS t b.body with
      | none => .error ("Target for indexing (" ++ t ++ ") not found in this bundle")
      | some (st, sz, txt) =>
        if sz ≠ nongapLen txt then .error "Invalid length for target coordinates"
        else
          match mafIdx t none (pos + blockLen b) rest with
          | .error e => .error e
          | .ok es =>
            .ok (⟨ucscbin st (st + sz - 1 + 1), st, st + sz - 1, pos⟩ :: es) := by
  unfold blockLines
  rw [List.cons_append, List.append_assoc, List.singleton_append]
  show mafIdx t (some pos) (pos + b.aLen) (b.body ++ ⟨LineK.blank, b.blankLen⟩ :: rest) = _
  rw [mafIdx_inner t pos b.blankLen b.body (pos + b.aLen) rest hshape]
  have harith : pos + b.aLen + sumLens b.body + b.blankLen = pos + blockLen b := by
    unfold blockLen
    omega
  rw [harith]

theorem mafIdx_blocks_append (t : String) (bs : List MafBlock) :
    ∀ (pos : Nat) (rest : List MLine), (∀ b ∈ bs, goodBlock t b) →
      mafIdx t none pos (bs.flatMap blockLines ++ rest) =
        (mafIdx t none (pos + blocksLen bs) rest).map
          (fun es => entriesOf t pos bs ++ es) := by
  induction bs with
  | nil =>
    intro pos rest _
    simp only [List.flatMap_nil, List.nil_append, blocksLen, entriesOf, Nat.add_zero]
    cases hm : mafIdx t none pos rest <;> simp [Except.map]
  | cons b bs ih =>
    intro pos rest h
    have hgb := h b (List.mem_cons_self b bs)
    have hgbs : ∀ x ∈ bs, goodBlock t x := fun x hx => h x (List.mem_cons_of_mem b hx)
    obtain ⟨hshape, st, sz, txt, hfind, hsz, hposz⟩ := hgb
    rw [List.flatMap_cons, List.append_assoc, mafIdx_block t b _ hshape pos]
    simp only [hfind]
    rw [if_neg (not_not_intro hsz)]
    rw [ih (pos + blockLen b) rest hgbs]
    have harith : pos + blockLen b + blocksLen bs = pos + blocksLen (b :: bs) := by
      simp only [blocksLen]
      omega
    rw [harith]
    cases hm : mafIdx t none (pos + blocksLen (b :: bs)) rest with
    | error e => simp [Except.map]
    | ok es =>
      simp only [Except.map]
      simp only [entriesOf, hfind]
      rfl

/-- C8: over a file made of well-shaped blocks, the indexer emits, in
file order, exactly one entry per block, namely
`(_ucscbin(start, end + 1), start, end, offset)` with `end = start +
size - 1` taken from the first reference `s` line and `offset` the byte
position where the block's `a` line begins; a block without a reference
`s` line makes it fail with the target-not-found error, and a reference
`s` line whose size field differs from its non-gap text length makes it
fail with the invalid-length error. -/
theorem maf_indexer_correct (target : String) :
    (∀ bs : List MafBlock, (∀ b ∈ bs, goodBlock target b) →
      mafIndexer target (bs.flatMap blockLines) = .ok (entriesOf target 0 bs)) ∧
    (∀ (bs : List MafBlock) (c : MafBlock) (tail : List MLine),
      (∀ b ∈ bs, goodBlock target b) → bodyShape c.body →
      findTargetS target c.body = none →
      mafIndexer target (bs.flatMap blockLines ++ (blockLines c ++ tail)) =
        .error ("Target for indexing (" ++ target ++ ") not found in this bundle")) ∧
    (∀ (bs : List MafBlock) (c : MafBlock) (tail : List MLine)
      (st sz : Nat) (txt : List Char),
      (∀ b ∈ bs, goodBlock target b) → bodyShape c.body →
      findTargetS target c.body = some (st, sz, txt) → sz ≠ nongapLen txt →
      mafIndexer target (bs.flatMap blockLines ++ (blockLines c ++ tail)) =
        .error "Invalid length for target coordinates") := by
  refine ⟨?_, ?_, ?_⟩
  · intro bs h
    unfold mafIndexer
    have happ := mafIdx_blocks_append target bs 0 [] h
    rw [List.append_nil] at happ
    rw [happ]
    have hnil : mafIdx target none (0 + blocksLen bs) [] = .ok [] := rfl
    rw [hnil]
    simp [Except.map]
  · intro bs c tail h hcshape hcnone
    unfold mafIndexer
    rw [mafIdx_blocks_append target bs 0 (blockLines c ++ tail) h]
    rw [mafIdx_block target c tail hcshape (0 + blocksLen bs)]
    simp only [hcnone]
    rfl
  · intro bs c tail st sz txt h hcshape hcsome hszbad
    unfold mafIndexer
    rw [mafIdx_blocks_append target bs 0 (blockLines c ++ tail) h]
    rw [mafIdx_block target c tail hcshape (0 + blocksLen bs)]
    simp only [hcsome]
    rw [if_pos hszbad]
    rfl

theorem maf_indexer_correct_witness :
    mafIndexer "mm9.chr10"
        ([MafBlock.mk 10 [MLine.mk (LineK.sLine "mm9.chr10" 100 5 "ACGTA".toList) 30,
            MLine.mk (LineK.sLine "felCat3" 200 5 "ACCTA".toList) 30] 1].flatMap blockLines) =
      .ok (entriesOf "mm9.chr10" 0
        [MafBlock.mk 10 [MLine.mk (LineK.sLine "mm9.chr10" 100 5 "ACGTA".toList) 30,
            MLine.mk (LineK.sLine "felCat3" 200 5 "ACCTA".toList) 30] 1]) :=
  (maf_indexer_correct "mm9.chr10").1
    [MafBlock.mk 10 [MLine.mk (LineK.sLine "mm9.chr10" 100 5 "ACGTA".toList) 30,
        MLine.mk (LineK.sLine "felCat3" 200 5 "ACCTA".toList) 30] 1]
    (by
      intro b hb
      rw [List.mem_singleton.mp hb]
      constructor
      · intro l hl
        rcases List.mem_cons.mp hl with h1 | h1
        · subst h1
          exact ⟨by decide, by decide⟩
        · rw [List.mem_singleton.mp h1]
          exact ⟨by decide, by decide⟩
      · exact ⟨100, 5, "ACGTA".toList, by rfl, by rfl, by decide⟩)
